import Mathlib

/-!
Shallow embedding of the Validate–Repair pipeline of
`src/path/to/blog_writing_worker_direction.py` (the consolidated worker file;
all line numbers below refer to it).  Program text is modelled as `List Char`.
Raised `ValueError`s are modelled by `Except (List Char) Unit`, the payload
being the exception message.  The regular-expression operations of the source
are translated, scan position by scan position, into executable functions;
scanners that advance by more than one character per step take an explicit
fuel argument (always called with fuel `s.length`, which suffices because a
successful match always consumes at least one character).
-/

namespace BlogWorker

/-- String literal to character list. -/
def chars (s : String) : List Char := s.data

/-- The single-quote character (kept out of string literals). -/
def sq : Char := Char.ofNat 39

/-- The NUL character. -/
def nul : Char := Char.ofNat 0

/-- Whitespace as stripped by Python `str.strip` and matched by the regex
class found in the source patterns (the Unicode whitespace code points that
can occur in the texts modelled here). -/
def pyIsSpace (c : Char) : Bool :=
  c == ' ' || c == '\t' || c == '\n' || c == '\r' || c == Char.ofNat 11 ||
  c == Char.ofNat 12 || c == Char.ofNat 28 || c == Char.ofNat 29 ||
  c == Char.ofNat 30 || c == Char.ofNat 31 || c == Char.ofNat 133 ||
  c == Char.ofNat 160

/-- ASCII lower-casing, as applied by the case-insensitive regex flags in the
source (all case-insensitive patterns there are ASCII). -/
def lowerC (c : Char) : Char :=
  if 'A' ≤ c ∧ c ≤ 'Z' then Char.ofNat (c.toNat + 32) else c

/-- Python `str.lstrip()` (left whitespace strip). -/
def pyLStrip (s : List Char) : List Char := s.dropWhile pyIsSpace

/-- Python `str.rstrip()` (right whitespace strip). -/
def pyRStrip (s : List Char) : List Char := (s.reverse.dropWhile pyIsSpace).reverse

/-- Python `str.strip()`. -/
def pyStrip (s : List Char) : List Char := pyRStrip (pyLStrip s)

/-- Tests whether `p` is literally a prefix of `s`. -/
def hasPfx : List Char → List Char → Bool
  | [], _ => true
  | _ :: _, [] => false
  | p :: ps, c :: cs => c == p && hasPfx ps cs

/-- Python `p in s` (literal substring test). -/
def isSubstr (pat : List Char) : List Char → Bool
  | [] => pat.isEmpty
  | c :: cs => hasPfx pat (c :: cs) || isSubstr pat cs

/-- Tests whether `s` ends with `suf`. -/
def endsWith (suf s : List Char) : Bool := hasPfx suf.reverse s.reverse

/-- Case-insensitive literal prefix: consume `p` (given lower-case) from the
head of `s`, comparing each text character lower-cased; return the remainder. -/
def dropPfxCI : List Char → List Char → Option (List Char)
  | [], s => some s
  | _ :: _, [] => none
  | p :: ps, c :: cs => if lowerC c = p then dropPfxCI ps cs else none

/-- Case-sensitive literal prefix with remainder. -/
def dropPfx : List Char → List Char → Option (List Char)
  | [], s => some s
  | _ :: _, [] => none
  | p :: ps, c :: cs => if c = p then dropPfx ps cs else none

/-- Python `re.search(pat, s, re.IGNORECASE) is not None` for a literal `pat`
(given lower-case). -/
def isSubstrCI (pat : List Char) : List Char → Bool
  | [] => pat.isEmpty
  | c :: cs => (dropPfxCI pat (c :: cs)).isSome || isSubstrCI pat cs

/-- Number of (overlap-counted) case-insensitive occurrences of a literal.
Used only to state properties about inputs, not by any embedded function. -/
def countSubstrCI (pat : List Char) : List Char → Nat
  | [] => 0
  | c :: cs => (if (dropPfxCI pat (c :: cs)).isSome then 1 else 0) + countSubstrCI pat cs

/-- Regex `\w` (ASCII word character, as in the source's ASCII patterns). -/
def isWordChar (c : Char) : Bool := c.isAlphanum || c == '_'

-- ===== MODULE 3 data model (line 39): SourceDoc =====

/-- Model of `SourceDoc` (line 39): a fetched source document. -/
structure SourceDoc where
  url : List Char
  title : List Char
  text : List Char

-- ===== MODULE 8 validators (lines 382-466) =====

/-- Message of `validate_no_dashes` (line 386). -/
def dashMsg : List Char := chars "Found forbidden dash character (— or –)."

/-- Embeds `validate_no_dashes` (lines 382-386): `DASH_FORBIDDEN = ["—", "–"]`
(line 23); the loop raises on the first forbidden character found, with the
same message either way. -/
def validate_no_dashes (md : List Char) : Except (List Char) Unit :=
  if md.contains '—' then .error dashMsg
  else if md.contains '–' then .error dashMsg
  else .ok ()

/-- Message of the `## FAQs` presence check (line 407). -/
def faqMissingMsg : List Char :=
  chars "Missing " ++ [sq] ++ chars "## FAQs" ++ [sq] ++ chars " section."

/-- Message of the FAQ count check (line 411). -/
def faqCountMsg (n : Nat) : List Char :=
  chars "Expected exactly 4 FAQ questions (Q1–Q4). Found " ++ (toString n).data ++ chars "."

/-- The class `[1-4]` of the FAQ question pattern. -/
def qDigit (c : Char) : Bool := c == '1' || c == '2' || c == '3' || c == '4'

/-- Index of the last newline of a list, if any. -/
def lastNlIndex : List Char → Option Nat
  | [] => none
  | c :: u =>
    match lastNlIndex u with
    | some i => some (i + 1)
    | none => if c == '\n' then some 0 else none

/-- Resumption point of the trailing `\s*$` of the FAQ line pattern.
`t` is the text from the first newline after the matched line (empty when the
line ends the text).  The greedy `\s*`, backtracking for `$`, stops at the
last newline of the whitespace run, or consumes everything when the run
reaches the end of the text. -/
def wsResume (t : List Char) : List Char :=
  if t.all pyIsSpace then []
  else
    match lastNlIndex (t.takeWhile pyIsSpace) with
    | some i => t.drop i
    | none => t

/-- One attempt of `^\*\*Q([1-4]):.*\?\*\*\s*$` (re.MULTILINE, line 409) at a
line-start position.  `.*` stays within the line; the line must end, modulo
trailing whitespace, with `?**`.  Returns the text where scanning resumes. -/
def qMatchAt (s : List Char) : Option (List Char) :=
  match s with
  | '*' :: '*' :: 'Q' :: d :: ':' :: rest =>
    if qDigit d then
      let line := rest.takeWhile (· != '\n')
      if endsWith (chars "?**") (pyRStrip line) then
        some (wsResume (rest.dropWhile (· != '\n')))
      else none
    else none
  | _ => none

/-- The `re.findall` scan for the FAQ question pattern: count the non-overlapping
matches.  `atStart` tracks whether the current position follows a newline (or
is the start of the text), where `^` can match.  A match's resumption point is
either empty or begins with a newline, which can never start a match, so the
flag passed after a match is irrelevant to the count. -/
def qScanF : Nat → List Char → Bool → Nat
  | 0, _, _ => 0
  | _ + 1, [], _ => 0
  | f + 1, c :: cs, atStart =>
    if atStart then
      match qMatchAt (c :: cs) with
      | some r => 1 + qScanF f r false
      | none => qScanF f cs (c == '\n')
    else qScanF f cs (c == '\n')

/-- Number of FAQ question lines found by `re.findall` (line 409). -/
def qCount (s : List Char) : Nat := qScanF s.length s true

/-- Embeds `validate_faqs` (lines 404-411). -/
def validate_faqs (md : List Char) : Except (List Char) Unit :=
  if isSubstr (chars "## FAQs") md = false then .error faqMissingMsg
  else if qCount md ≠ 4 then .error (faqCountMsg (qCount md))
  else .ok ()

/-- Message of `validate_has_citations` (line 418). -/
def citeMsg : List Char :=
  chars "Too few citations. Add more supported claims with (Source 1)/(Source 2)."

/-- One attempt of `CITATION_PATTERN = \(Source\s[12]\)` (line 24) at a
position; returns the remainder after the match. -/
def citeMatchAt (s : List Char) : Option (List Char) :=
  match dropPfx (chars "(Source") s with
  | none => none
  | some (w :: d :: ')' :: r) =>
    if pyIsSpace w && (d == '1' || d == '2') then some r else none
  | some _ => none

/-- The `re.findall` count for the citation pattern (line 416). -/
def citeCountF : Nat → List Char → Nat
  | 0, _ => 0
  | _ + 1, [] => 0
  | f + 1, c :: cs =>
    match citeMatchAt (c :: cs) with
    | some r => 1 + citeCountF f r
    | none => citeCountF f cs

/-- Number of citation markers in `md`. -/
def citeCount (s : List Char) : Nat := citeCountF s.length s

/-- Embeds `validate_has_citations` (lines 414-418). -/
def validate_has_citations (md : List Char) : Except (List Char) Unit :=
  if citeCount md < 6 then .error citeMsg else .ok ()

/-- Message of the backlink check (line 394). -/
def backlinkMsg (u : List Char) : List Char :=
  chars "Missing backlink to required source: " ++ u

/-- One attempt of the URL pattern of line 398 at a position, returning the
matched text and the remainder.  NOTE: the source line
`found = set(re.findall(r"https?://[^"]+", md))` is not valid Python (the
unescaped quote ends the raw string early); the minimal repair of that literal
is the pattern `https?://[^"]+`, embedded here: `http`, optional `s`, `://`,
then a maximal non-empty run of characters other than a double quote (the run
may cross newlines and spaces). -/
def urlMatchAt (s : List Char) : Option (List Char × List Char) :=
  match dropPfx (chars "http") s with
  | none => none
  | some ('s' :: ':' :: '/' :: '/' :: r2) =>
    match r2.takeWhile (· != '"') with
    | [] => none
    | run => some (chars "https://" ++ run, r2.drop run.length)
  | some (':' :: '/' :: '/' :: r2) =>
    match r2.takeWhile (· != '"') with
    | [] => none
    | run => some (chars "http://" ++ run, r2.drop run.length)
  | some _ => none

/-- The `re.findall` for the URL pattern: the list of non-overlapping matches. -/
def urlFindAllF : Nat → List Char → List (List Char)
  | 0, _ => []
  | _ + 1, [] => []
  | f + 1, c :: cs =>
    match urlMatchAt (c :: cs) with
    | some (m, r) => m :: urlFindAllF f r
    | none => urlFindAllF f cs

/-- All URL-pattern matches in `md`. -/
def urlFindAll (s : List Char) : List (List Char) := urlFindAllF s.length s

/-- Python `set(...)`: drop duplicates, keeping first occurrences (the order is
irrelevant: the set is only filtered, tested for emptiness and sorted). -/
def dedup : List (List Char) → List (List Char)
  | [] => []
  | u :: us => u :: (dedup us).filter (· != u)

/-- Python string `<` (lexicographic by code point). -/
def lexLt : List Char → List Char → Bool
  | [], [] => false
  | [], _ :: _ => true
  | _ :: _, [] => false
  | a :: l1, b :: l2 => if a == b then lexLt l1 l2 else decide (a < b)

/-- Insert into a lexicographically sorted list. -/
def insLex (u : List Char) : List (List Char) → List (List Char)
  | [] => [u]
  | v :: vs => if lexLt u v then u :: v :: vs else v :: insLex u vs

/-- Python `sorted` on strings (insertion sort, lexicographic). -/
def sortLex : List (List Char) → List (List Char)
  | [] => []
  | u :: us => insLex u (sortLex us)

/-- Python `repr` of a list of the strings at hand (none of which contains a
quote character), as interpolated into the message of line 401. -/
def pyListRepr (l : List (List Char)) : List Char :=
  ['['] ++ List.intercalate (chars ", ") (l.map (fun u => [sq] ++ u ++ [sq])) ++ [']']

/-- Message of the disallowed-links check (line 401):
`f"Found disallowed external links: {sorted(extras)[:5]}"`. -/
def extrasMsg (extras : List (List Char)) : List Char :=
  chars "Found disallowed external links: " ++ pyListRepr ((sortLex extras).take 5)

/-- Embeds `validate_two_sources_only` (lines 389-401).  The pipeline always passes a
two-element source list (line 479-481), modelled as a pair; the `for` loop
raises at the first source whose URL is not a literal substring of `md`.
`allowed` is the closed reference set of line 397. -/
def validate_two_sources_only (md : List Char) (srcs : SourceDoc × SourceDoc) :
    Except (List Char) Unit :=
  if isSubstr srcs.1.url md = false then .error (backlinkMsg srcs.1.url)
  else if isSubstr srcs.2.url md = false then .error (backlinkMsg srcs.2.url)
  else
    let allowed : List (List Char) :=
      [srcs.1.url, srcs.2.url, chars "https://bitxcapital.com", chars "http://bitxcapital.com"]
    let extras := (dedup (urlFindAll md)).filter (fun u => !allowed.contains u)
    if extras.isEmpty then .ok () else .error (extrasMsg extras)

/-- Embeds `validate_all` (lines 461-466): runs the four validators in order; being
`raise`-based, the first failure propagates and the remaining validators never
run. -/
def validate_all (md : List Char) (srcs : SourceDoc × SourceDoc) :
    Except (List Char) Unit := do
  validate_no_dashes md
  validate_faqs md
  validate_has_citations md
  validate_two_sources_only md srcs

-- ===== MODULE 9 (lines 469-515): generation workflow =====

/-- Embeds `generate_blog_with_two_sources` (lines 469-515).  The web search and the
source fetch are external collaborators (`NotImplementedError` stubs at lines
61-87 of the source): their successful result — exactly two loaded sources —
enters as `srcs`.  `gen n` models the text returned by the n-th `call_llm`
invocation (the keyword, angle and the remediation prompt built from the first
failure only shape the conversation sent to the opaque generator).  The second
component counts the generation calls made: one for the draft; on a validation
failure exactly one more for the repair, whose re-validation failure, if any,
is the error surfaced. -/
def generate_blog_with_two_sources (gen : Nat → List Char)
    (srcs : SourceDoc × SourceDoc) : Except (List Char) (List Char) × Nat :=
  let draft := gen 0
  match validate_all draft srcs with
  | .ok _ => (.ok draft, 1)
  | .error _ =>
    let repaired := gen 1
    match validate_all repaired srcs with
    | .ok _ => (.ok repaired, 2)
    | .error e2 => (.error e2, 2)

-- ===== MODULE 10 (lines 518-527): summary injection =====

/-- Line-break characters of Python `str.splitlines`. -/
def isLineBreak (c : Char) : Bool :=
  c == '\n' || c == '\r' || c == Char.ofNat 11 || c == Char.ofNat 12 ||
  c == Char.ofNat 28 || c == Char.ofNat 29 || c == Char.ofNat 30 ||
  c == Char.ofNat 133 || c == Char.ofNat 8232 || c == Char.ofNat 8233

/-- Python `str.splitlines()` (with fuel; `\r\n` counts as one break). -/
def pySplitlinesF : Nat → List Char → List (List Char)
  | 0, _ => []
  | _ + 1, [] => []
  | f + 1, s =>
    let line := s.takeWhile (fun c => !isLineBreak c)
    match s.dropWhile (fun c => !isLineBreak c) with
    | [] => [line]
    | '\r' :: '\n' :: r => line :: pySplitlinesF f r
    | _ :: r => line :: pySplitlinesF f r

/-- Python `str.splitlines()`. -/
def pySplitlines (s : List Char) : List (List Char) := pySplitlinesF s.length s

/-- Python `"\n".join`. -/
def joinNl : List (List Char) → List Char
  | [] => []
  | [l] => l
  | l :: ls => l ++ '\n' :: joinNl ls

/-- Embeds `inject_summary_at_top` (lines 518-527): if the first line is an H1, the
summary goes after it with a blank line around; otherwise it is prepended; the
result is stripped and given a trailing newline. -/
def inject_summary_at_top (blog_md summary_block : List Char) : List Char :=
  match pySplitlines blog_md with
  | l0 :: rest =>
    if hasPfx (chars "# ") l0 then
      pyStrip (joinNl ([l0, [], pyStrip summary_block, []] ++ rest)) ++ ['\n']
    else pyStrip summary_block ++ chars "\n\n" ++ pyStrip blog_md ++ ['\n']
  | [] => pyStrip summary_block ++ chars "\n\n" ++ pyStrip blog_md ++ ['\n']

-- ===== MODULE 11 (lines 439-458): table validator =====

/-- Messages of `validate_html_table` (lines 442, 446, 452, 458). -/
def tableDashMsg : List Char := chars "Table contains a forbidden dash character (— or –)."

/-- Code-fence message (line 446). -/
def tableFenceMsg : List Char := chars "Table must be raw HTML only (no code fences)."

/-- Exactly-one-table message (line 452). -/
def tableOneMsg : List Char := chars "Output must contain exactly one <table>...</table>."

/-- Missing-tag message (line 458). -/
def tableMissingMsg (tag : List Char) : List Char := chars "Missing required HTML tag: " ++ tag

/-- One attempt of `<table\b` (re.IGNORECASE, line 449): the literal `<table`
followed by a word boundary, i.e. by a non-word character or the end. -/
def openTableAt (s : List Char) : Option (List Char) :=
  match dropPfxCI (chars "<table") s with
  | none => none
  | some [] => some []
  | some (c :: r) => if isWordChar c then none else some (c :: r)

/-- The `re.findall` count for `<table\b` (each match spans the six literal
characters; scanning resumes after them). -/
def openTableCountF : Nat → List Char → Nat
  | 0, _ => 0
  | _ + 1, [] => 0
  | f + 1, c :: cs =>
    match openTableAt (c :: cs) with
    | some r => 1 + openTableCountF f r
    | none => openTableCountF f cs

/-- Number of `<table\b` matches. -/
def openTableCount (s : List Char) : Nat := openTableCountF s.length s

/-- The `re.findall` count for the literal `</table>` (re.IGNORECASE, line 450). -/
def closeTableCountF : Nat → List Char → Nat
  | 0, _ => 0
  | _ + 1, [] => 0
  | f + 1, c :: cs =>
    match dropPfxCI (chars "</table>") (c :: cs) with
    | some r => 1 + closeTableCountF f r
    | none => closeTableCountF f cs

/-- Number of `</table>` matches. -/
def closeTableCount (s : List Char) : Nat := closeTableCountF s.length s

/-- Embeds `validate_html_table` (lines 439-458).  The five required "tags" checks of
lines 455-458 are case-insensitive substring searches for the literals
`<thead`, `<tbody`, `<tr`, `<th`, `<td`, raising at the first one absent. -/
def validate_html_table (table_html : List Char) : Except (List Char) Unit :=
  if table_html.contains '—' || table_html.contains '–' then .error tableDashMsg
  else if isSubstr (chars "```") (pyStrip table_html) then .error tableFenceMsg
  else if openTableCount (pyStrip table_html) ≠ 1 ∨ closeTableCount (pyStrip table_html) ≠ 1 then
    .error tableOneMsg
  else if isSubstrCI (chars "<thead") (pyStrip table_html) = false then
    .error (tableMissingMsg (chars "<thead"))
  else if isSubstrCI (chars "<tbody") (pyStrip table_html) = false then
    .error (tableMissingMsg (chars "<tbody"))
  else if isSubstrCI (chars "<tr") (pyStrip table_html) = false then
    .error (tableMissingMsg (chars "<tr"))
  else if isSubstrCI (chars "<th") (pyStrip table_html) = false then
    .error (tableMissingMsg (chars "<th"))
  else if isSubstrCI (chars "<td") (pyStrip table_html) = false then
    .error (tableMissingMsg (chars "<td"))
  else .ok ()

-- ===== MODULE 8, summary validator (lines 421-436) =====

/-- Blockquote message (line 425). -/
def summaryQuoteMsg : List Char :=
  chars "Summary must be a single Markdown blockquote starting with " ++
    [sq, '>', sq] ++ chars "."

/-- Summary dash message (line 430). -/
def summaryDashMsg : List Char := chars "Summary contains a forbidden dash character (— or –)."

/-- Summary sentence-count message (line 436). -/
def summaryCountMsg (n : Nat) : List Char :=
  chars "Summary must be 4–5 sentences. Found " ++ (toString n).data ++ chars "."

/-- Sentence punctuation of the split pattern `[.!?]+` (line 434). -/
def sentPunct (c : Char) : Bool := c == '.' || c == '!' || c == '?'

/-- Python `re.split(r"[.!?]+", text)`: the pieces between maximal punctuation runs
(including empty boundary pieces, discarded by the caller's filter). -/
def splitPunctF : Nat → List Char → List (List Char)
  | 0, s => [s]
  | f + 1, s =>
    let piece := s.takeWhile (fun c => !sentPunct c)
    match s.dropWhile (fun c => !sentPunct c) with
    | [] => [piece]
    | rest => piece :: splitPunctF f (rest.dropWhile sentPunct)

/-- Python `re.split` on `[.!?]+`. -/
def splitPunct (s : List Char) : List (List Char) := splitPunctF s.length s

/-- Sentence count of a summary block (lines 433-434): strip the leading `>`
characters and surrounding whitespace, split on punctuation runs, keep the
pieces that are non-empty after stripping. -/
def sentenceCount (summary_block : List Char) : Nat :=
  (((splitPunct (pyStrip (summary_block.dropWhile (· == '>')))).map pyStrip).filter
    (· ≠ [])).length

/-- Embeds `validate_summary` (lines 421-436). -/
def validate_summary (summary_block : List Char) : Except (List Char) Unit :=
  if hasPfx (chars ">") (pyStrip summary_block) = false then .error summaryQuoteMsg
  else if summary_block.contains '—' then .error summaryDashMsg
  else if summary_block.contains '–' then .error summaryDashMsg
  else if ¬ (4 ≤ sentenceCount summary_block ∧ sentenceCount summary_block ≤ 5) then
    .error (summaryCountMsg (sentenceCount summary_block))
  else .ok ()

-- ===== MODULE 12 (lines 637-675): output sanitizer =====

/-- The five dangerous element names of the pattern at line 660 (in the
alternation's order; none is a case-insensitive prefix of another followed by
more name text, so at most one can match at a given position). -/
def dangerNames : List (List Char) :=
  [chars "script", chars "style", chars "iframe", chars "object", chars "embed"]

/-- Try the alternation `(script|style|iframe|object|embed)` case-insensitively
at the head of `s`; return the (lower-case) name matched and the remainder. -/
def tryDanger : List (List Char) → List Char → Option (List Char × List Char)
  | [], _ => none
  | n :: ns, s =>
    match dropPfxCI n s with
    | some r => some (n, r)
    | none => tryDanger ns s

/-- Search for the closing tag `</name>` case-insensitively (the lazy `.*?` of
the pattern, with re.DOTALL, stops at the nearest occurrence); return the text
after it. -/
def findCloseCI (n : List Char) : List Char → Option (List Char)
  | [] => none
  | c :: cs =>
    match dropPfxCI ('<' :: '/' :: (n ++ ['>'])) (c :: cs) with
    | some r => some r
    | none => findCloseCI n cs

/-- One attempt of `(?is)<(script|style|iframe|object|embed)[^>]*>.*?</\1>`
(line 660) at a position: `<`, a dangerous name (case-insensitive), attributes
without `>`, the closing `>` of the opening tag, then everything up to the
nearest matching closing tag.  Returns the text after the whole element. -/
def matchBlockAt : List Char → Option (List Char)
  | [] => none
  | c :: rest =>
    if c = '<' then
      match tryDanger dangerNames rest with
      | none => none
      | some (n, r1) =>
        match r1.dropWhile (· != '>') with
        | [] => none
        | c2 :: r2 => if c2 = '>' then findCloseCI n r2 else none
    else none

/-- The `re.sub` deleting every dangerous element (line 660): a single
left-to-right pass; the replacement (empty) is not rescanned. -/
def removeBlocksF : Nat → List Char → List Char
  | 0, s => s
  | _ + 1, [] => []
  | f + 1, c :: cs =>
    match matchBlockAt (c :: cs) with
    | some r => removeBlocksF f r
    | none => c :: removeBlocksF f cs

/-- Dangerous-element removal pass of `sanitize_output`. -/
def removeBlocks (s : List Char) : List Char := removeBlocksF s.length s

/-- The lazy `.*?` before a closing quote, without re.DOTALL: consume up to
the nearest `q`, failing at a newline or the end. -/
def lazyToQuote (q : Char) : List Char → Option (List Char)
  | [] => none
  | c :: cs => if c == q then some cs else if c == '\n' then none else lazyToQuote q cs

/-- The third alternative `[^\s>]+` of the event-handler value (line 664): a
maximal non-empty run without whitespace or `>`. -/
def bareValue (s : List Char) : Option (List Char) :=
  if (s.takeWhile (fun c => !pyIsSpace c && c != '>')).isEmpty then none
  else some (s.drop (s.takeWhile (fun c => !pyIsSpace c && c != '>')).length)

/-- The value alternation `(".*?"|\x27.*?\x27|[^\s>]+)` of the event-handler
pattern (line 664), in the alternation's order: a double-quoted value closed
on the same line, else a single-quoted one, else the bare run (which also
catches an opening quote with no same-line closing quote). -/
def matchAttrValue : List Char → Option (List Char)
  | [] => none
  | c :: r =>
    if c = '"' then
      match lazyToQuote '"' r with
      | some r2 => some r2
      | none => bareValue (c :: r)
    else if c = sq then
      match lazyToQuote sq r with
      | some r2 => some r2
      | none => bareValue (c :: r)
    else bareValue (c :: r)

/-- One attempt of `(?i)\son\w+\s*=\s*(value)` (line 664) at a position:
a whitespace character, `on`, a non-empty word run, optional whitespace, `=`,
optional whitespace, then the value. -/
def matchHandlerAt : List Char → Option (List Char)
  | [] => none
  | c :: r0 =>
    if pyIsSpace c then
      match dropPfxCI (chars "on") r0 with
      | none => none
      | some r1 =>
        if (r1.takeWhile isWordChar).isEmpty then none
        else
          match (r1.dropWhile isWordChar).dropWhile pyIsSpace with
          | [] => none
          | c2 :: r4 => if c2 = '=' then matchAttrValue (r4.dropWhile pyIsSpace) else none
    else none

/-- The `re.sub` deleting inline event handlers (line 664). -/
def removeHandlersF : Nat → List Char → List Char
  | 0, s => s
  | _ + 1, [] => []
  | f + 1, c :: cs =>
    match matchHandlerAt (c :: cs) with
    | some r => removeHandlersF f r
    | none => c :: removeHandlersF f cs

/-- Event-handler removal pass of `sanitize_output`. -/
def removeHandlers (s : List Char) : List Char := removeHandlersF s.length s

/-- One attempt of `(?i)href\s*=\s*("|\x27)\s*javascript:.*?\1` (line 668) at
a position: `href`, optional whitespace, `=`, optional whitespace, a quote,
optional whitespace, `javascript:`, then lazily up to the matching quote on
the same line.  Returns the text after the match. -/
def matchHrefAt (s : List Char) : Option (List Char) :=
  match dropPfxCI (chars "href") s with
  | none => none
  | some r1 =>
    match r1.dropWhile pyIsSpace with
    | [] => none
    | c :: r2 =>
      if c = '=' then
        match r2.dropWhile pyIsSpace with
        | q :: r4 =>
          if q == '"' || q == sq then
            match dropPfxCI (chars "javascript:") (r4.dropWhile pyIsSpace) with
            | some r5 => lazyToQuote q r5
            | none => none
          else none
        | [] => none
      else none

/-- The replacement `href="#"` of line 668. -/
def hrefRepl : List Char := chars "href=\"#\""

/-- The `re.sub` rewriting javascript: hrefs (line 668): each match is replaced by
`href="#"`; the replacement is not rescanned. -/
def fixHrefsF : Nat → List Char → List Char
  | 0, s => s
  | _ + 1, [] => []
  | f + 1, c :: cs =>
    match matchHrefAt (c :: cs) with
    | some r => hrefRepl ++ fixHrefsF f r
    | none => c :: fixHrefsF f cs

/-- javascript:-href rewriting pass of `sanitize_output`. -/
def fixHrefs (s : List Char) : List Char := fixHrefsF s.length s

/-- The class `[a-zA-Z0-9_-]` of the leading code-fence pattern (line 655). -/
def fenceTagChar (c : Char) : Bool := c.isAlphanum || c == '_' || c == '-'

/-- Embeds `re.sub(r"^```[a-zA-Z0-9_-]*\s*", "", text)` (line 655): anchored at the
start of the string, so at most one replacement, at position 0. -/
def stripLeadFence (s : List Char) : List Char :=
  match dropPfx (chars "```") s with
  | none => s
  | some r => (r.dropWhile fenceTagChar).dropWhile pyIsSpace

/-- Embeds `re.sub(r"\s*```$", "", text)` (line 656): without re.MULTILINE, `$`
matches at the end of the string or just before a final newline, so the one
possible match is the final code fence together with the contiguous
whitespace run before it. -/
def stripTrailFence (s : List Char) : List Char :=
  if endsWith (chars "```") s then pyRStrip (s.take (s.length - 3))
  else if endsWith (chars "```\n") s then pyRStrip (s.take (s.length - 4)) ++ ['\n']
  else s

/-- Final truncation of lines 672-673: `text[:max_len].rstrip()` when the text
exceeds the ceiling. -/
def truncAt (max_len : Nat) (t : List Char) : List Char :=
  if max_len < t.length then pyRStrip (t.take max_len) else t

/-- Embeds `sanitize_output` (lines 637-675): drop null bytes, strip, strip a leading
and a trailing code fence, delete dangerous elements, delete inline event
handlers, rewrite javascript: hrefs, strip again, truncate to the ceiling. -/
def sanitize_output (text : List Char) (max_len : Nat) : List Char :=
  truncAt max_len
    (pyStrip (fixHrefs (removeHandlers (removeBlocks
      (stripTrailFence (stripLeadFence (pyStrip (text.filter (· != nul)))))))))

-- ===== Concrete fixtures used by witnesses and counterexamples =====

/-- A two-source binding (the pipeline always binds exactly two). -/
def src0 : SourceDoc × SourceDoc :=
  (⟨chars "https://a.example/one", chars "A", chars "alpha"⟩,
   ⟨chars "https://b.example/two", chars "B", chars "beta"⟩)

/-- Content violating the dash rule, the FAQ rule and the citation rule. -/
def c2md : List Char := chars "— no faqs here"

/-- Content whose first failing rule is the FAQ rule. -/
def c2faq : List Char := chars "no dashes here"

/-- Content whose first failing rule is the citation rule. -/
def c2cite : List Char := chars "## FAQs\n**Q1: a?**\n**Q2: b?**\n**Q3: c?**\n**Q4: d?**"

/-- Content whose first failing rule is the reference-integrity rule. -/
def c2src : List Char := chars
  "## FAQs\n**Q1: a?**\n**Q2: b?**\n**Q3: c?**\n**Q4: d?**\n(Source 1) (Source 2) (Source 1) (Source 2) (Source 1) (Source 2)"

/-- A payload whose dangerous-element removal splices a new script element. -/
def c3x : List Char := chars "<scri<script></script>pt>hello</scri<script></script>pt>"

/-- Blog content whose only links are markdown backlinks to the two bound
source URLs of `src0`. -/
def c4md : List Char :=
  chars "Intro [A](https://a.example/one) and [B](https://b.example/two) text."

/-- An unclosed style opening tag, then a well-formed script element whose
inner content `a</style>b` contains no closing script tag. -/
def c5x : List Char := chars "<style><script>a</style>b</script>"

/-- A table with a table-head marker but no header-cell (`<th>`) element. -/
def c7th : List Char :=
  chars "<table><thead></thead><tbody><tr><td>x</td></tr></tbody></table>"

/-- A table with two opening table markers and all structural tags present. -/
def c7two : List Char :=
  chars "<table><table><thead><tbody><tr><th>h</th><td>x</td></tr></tbody></table></table>"

/-- An href attribute with an unquoted javascript: value. -/
def c9u : List Char := chars "<a href=javascript:alert(1)>x</a>"

-- ===== Theorems =====

-- Helper lemmas about the embedded regex primitives.

theorem dropPfxCI_length : ∀ (p s r : List Char), dropPfxCI p s = some r →
    r.length + p.length = s.length := by
  intro p
  induction p with
  | nil =>
    intro s r h
    simp only [dropPfxCI, Option.some.injEq] at h
    subst h
    simp
  | cons a ps ih =>
    intro s r h
    cases s with
    | nil => simp [dropPfxCI] at h
    | cons c cs =>
      simp only [dropPfxCI] at h
      split at h
      · have := ih cs r h
        simp only [List.length_cons]
        omega
      · exact absurd h (by simp)

theorem dropPfxCI_lower_map_append : ∀ (l p2 r : List Char),
    dropPfxCI (l.map lowerC ++ p2) (l ++ r) = dropPfxCI p2 r := by
  intro l p2 r
  induction l with
  | nil => rfl
  | cons c l' ih =>
    simp only [List.map_cons, List.cons_append, dropPfxCI, if_pos rfl]
    exact ih

theorem dropPfxCI_lower_map (l r : List Char) :
    dropPfxCI (l.map lowerC) (l ++ r) = some r := by
  have := dropPfxCI_lower_map_append l [] r
  simpa using this

theorem dropPfxCI_none_of_mismatch : ∀ (pat l r : List Char),
    pat.take l.length ≠ (l.map lowerC).take pat.length → dropPfxCI pat (l ++ r) = none := by
  intro pat
  induction pat with
  | nil =>
    intro l r h
    exact absurd (by simp) h
  | cons p ps ih =>
    intro l r h
    cases l with
    | nil => exact absurd (by simp) h
    | cons c l' =>
      simp only [List.cons_append, dropPfxCI]
      by_cases hc : lowerC c = p
      · rw [if_pos hc]
        apply ih
        intro hEq
        apply h
        simp only [List.length_cons, List.map_cons, List.take_succ_cons, hc, hEq]
      · rw [if_neg hc]

theorem lazyToQuote_lt : ∀ (s : List Char) (q : Char) (r : List Char),
    lazyToQuote q s = some r → r.length < s.length := by
  intro s
  induction s with
  | nil => intro q r h; simp [lazyToQuote] at h
  | cons c cs ih =>
    intro q r h
    simp only [lazyToQuote] at h
    split at h
    · simp only [Option.some.injEq] at h
      subst h
      simp
    · split at h
      · exact absurd h (by simp)
      · have := ih q r h
        simp only [List.length_cons]
        omega

theorem lazyToQuote_through : ∀ (v : List Char) (q : Char) (t : List Char),
    (∀ c ∈ v, c ≠ q ∧ c ≠ '\n') → lazyToQuote q (v ++ q :: t) = some t := by
  intro v
  induction v with
  | nil =>
    intro q t _
    simp [lazyToQuote]
  | cons c v' ih =>
    intro q t hv
    have h1 : c ≠ q := (hv c (List.mem_cons_self c v')).1
    have h2 : c ≠ '\n' := (hv c (List.mem_cons_self c v')).2
    simp only [List.cons_append, lazyToQuote, beq_iff_eq, if_neg h1, if_neg h2]
    exact ih q t (fun d hd => hv d (List.mem_cons_of_mem c hd))

theorem dropWhile_to_gt : ∀ (attrs rest : List Char), '>' ∉ attrs →
    (attrs ++ '>' :: rest).dropWhile (· != '>') = '>' :: rest := by
  intro attrs
  induction attrs with
  | nil =>
    intro rest _
    simp [List.dropWhile]
  | cons c a ih =>
    intro rest h
    have hc : c ≠ '>' := fun hh => h (hh ▸ List.mem_cons_self c a)
    rw [List.cons_append, List.dropWhile_cons]
    simp only [bne_iff_ne, ne_eq, hc, not_false_eq_true, if_true]
    exact ih rest (fun hm => h (List.mem_cons_of_mem c hm))

theorem dropWhile_len_le (p : Char → Bool) : ∀ l : List Char,
    (l.dropWhile p).length ≤ l.length := by
  intro l
  induction l with
  | nil => simp
  | cons c cs ih =>
    rw [List.dropWhile_cons]
    split
    · simp only [List.length_cons]
      omega
    · simp

theorem takeWhile_len_le (p : Char → Bool) : ∀ l : List Char,
    (l.takeWhile p).length ≤ l.length := by
  intro l
  induction l with
  | nil => simp
  | cons c cs ih =>
    rw [List.takeWhile_cons]
    split
    · simp only [List.length_cons]
      omega
    · simp

theorem dropPfx_length : ∀ (p s r : List Char), dropPfx p s = some r →
    r.length + p.length = s.length := by
  intro p
  induction p with
  | nil =>
    intro s r h
    simp only [dropPfx, Option.some.injEq] at h
    subst h
    simp
  | cons a ps ih =>
    intro s r h
    cases s with
    | nil => simp [dropPfx] at h
    | cons c cs =>
      simp only [dropPfx] at h
      split at h
      · have := ih cs r h
        simp only [List.length_cons]
        omega
      · exact absurd h (by simp)

theorem hasPfx_le : ∀ (p s : List Char), hasPfx p s = true → p.length ≤ s.length := by
  intro p
  induction p with
  | nil => intro s _; simp
  | cons a ps ih =>
    intro s h
    cases s with
    | nil => simp [hasPfx] at h
    | cons c cs =>
      simp only [hasPfx, Bool.and_eq_true] at h
      have := ih cs h.2
      simp only [List.length_cons]
      omega

-- Each sanitation pass either leaves its input unchanged or strictly
-- shortens it; this is what makes the fixed-point characterisation of
-- re-sanitization an equivalence.

theorem filter_eq_or_lt (p : Char → Bool) : ∀ s : List Char,
    s.filter p = s ∨ (s.filter p).length < s.length := by
  intro s
  induction s with
  | nil => left; rfl
  | cons c cs ih =>
    rw [List.filter_cons]
    split
    · rcases ih with h | h
      · left
        rw [h]
      · right
        simp only [List.length_cons]
        omega
    · right
      have := List.length_filter_le p cs
      simp only [List.length_cons]
      omega

theorem dropWhile_eq_or_lt (p : Char → Bool) : ∀ s : List Char,
    s.dropWhile p = s ∨ (s.dropWhile p).length < s.length := by
  intro s
  cases s with
  | nil => left; rfl
  | cons c cs =>
    rw [List.dropWhile_cons]
    split
    · right
      have := dropWhile_len_le p cs
      simp only [List.length_cons]
      omega
    · left
      rfl

theorem pyRStrip_len_le (s : List Char) : (pyRStrip s).length ≤ s.length := by
  unfold pyRStrip
  rw [List.length_reverse]
  have h := dropWhile_len_le pyIsSpace s.reverse
  rw [List.length_reverse] at h
  exact h

theorem pyRStrip_eq_or_lt (s : List Char) :
    pyRStrip s = s ∨ (pyRStrip s).length < s.length := by
  unfold pyRStrip
  rcases dropWhile_eq_or_lt pyIsSpace s.reverse with h | h
  · left
    rw [h, List.reverse_reverse]
  · right
    rw [List.length_reverse]
    rw [List.length_reverse] at h
    exact h

theorem pyStrip_len_le (s : List Char) : (pyStrip s).length ≤ s.length := by
  unfold pyStrip pyLStrip
  exact le_trans (pyRStrip_len_le _) (dropWhile_len_le _ _)

theorem pyStrip_eq_or_lt (s : List Char) :
    pyStrip s = s ∨ (pyStrip s).length < s.length := by
  unfold pyStrip pyLStrip
  rcases dropWhile_eq_or_lt pyIsSpace s with h | h
  · rw [h]
    exact pyRStrip_eq_or_lt s
  · right
    have := pyRStrip_len_le (s.dropWhile pyIsSpace)
    omega

theorem stripLeadFence_eq_or_lt (s : List Char) :
    stripLeadFence s = s ∨ (stripLeadFence s).length < s.length := by
  unfold stripLeadFence
  rcases hd : dropPfx (chars "```") s with - | r
  · left
    rfl
  · right
    have hl := dropPfx_length _ _ _ hd
    rw [show (chars "```").length = 3 from rfl] at hl
    have h1 := dropWhile_len_le pyIsSpace (r.dropWhile fenceTagChar)
    have h2 := dropWhile_len_le fenceTagChar r
    show ((r.dropWhile fenceTagChar).dropWhile pyIsSpace).length < s.length
    omega

theorem stripLeadFence_len_le (s : List Char) :
    (stripLeadFence s).length ≤ s.length := by
  rcases stripLeadFence_eq_or_lt s with h | h
  · exact le_of_eq (congrArg List.length h)
  · exact le_of_lt h

theorem stripTrailFence_eq_or_lt (s : List Char) :
    stripTrailFence s = s ∨ (stripTrailFence s).length < s.length := by
  unfold stripTrailFence
  split
  · rename_i h3
    right
    unfold endsWith at h3
    have hlen := hasPfx_le _ _ h3
    rw [show ((chars "```").reverse).length = 3 from rfl, List.length_reverse] at hlen
    have h1 := pyRStrip_len_le (s.take (s.length - 3))
    rw [List.length_take] at h1
    omega
  · split
    · rename_i h4
      right
      unfold endsWith at h4
      have hlen := hasPfx_le _ _ h4
      rw [show ((chars "```\n").reverse).length = 4 from rfl, List.length_reverse] at hlen
      have h1 := pyRStrip_len_le (s.take (s.length - 4))
      rw [List.length_take] at h1
      rw [List.length_append, show (['\n'] : List Char).length = 1 from rfl]
      omega
    · left
      rfl

theorem stripTrailFence_len_le (s : List Char) :
    (stripTrailFence s).length ≤ s.length := by
  rcases stripTrailFence_eq_or_lt s with h | h
  · exact le_of_eq (congrArg List.length h)
  · exact le_of_lt h

theorem truncAt_len_le (L : Nat) (t : List Char) : (truncAt L t).length ≤ t.length := by
  unfold truncAt
  split
  · have h1 := pyRStrip_len_le (t.take L)
    rw [List.length_take] at h1
    omega
  · exact le_refl _

theorem truncAt_eq_imp (L : Nat) (t : List Char) (h : truncAt L t = t) :
    t.length ≤ L := by
  by_contra hc
  push_neg at hc
  unfold truncAt at h
  rw [if_pos hc] at h
  have h1 := congrArg List.length h
  have h2 := pyRStrip_len_le (t.take L)
  rw [List.length_take] at h2
  omega

-- Lemmas about the dangerous-element scanner (line 660).

theorem tryDanger_lt : ∀ (ns : List (List Char)) (s n r : List Char),
    (∀ m ∈ ns, m ≠ []) → tryDanger ns s = some (n, r) → r.length < s.length := by
  intro ns
  induction ns with
  | nil => intro s n r _ h; simp [tryDanger] at h
  | cons m ms ih =>
    intro s n r hne h
    simp only [tryDanger] at h
    split at h
    · rename_i r' heq
      simp only [Option.some.injEq, Prod.mk.injEq] at h
      obtain ⟨-, rfl⟩ := h
      have hl := dropPfxCI_length m s r' heq
      have hm : m ≠ [] := hne m (List.mem_cons_self m ms)
      have : 0 < m.length := List.length_pos.mpr hm
      omega
    · exact ih s n r (fun x hx => hne x (List.mem_cons_of_mem m hx)) h

theorem findCloseCI_lt : ∀ (s n r : List Char),
    findCloseCI n s = some r → r.length < s.length := by
  intro s
  induction s with
  | nil => intro n r h; simp [findCloseCI] at h
  | cons c cs ih =>
    intro n r h
    simp only [findCloseCI] at h
    split at h
    · rename_i r' heq
      simp only [Option.some.injEq] at h
      subst h
      have := dropPfxCI_length _ _ _ heq
      simp only [List.length_cons, List.length_append] at this ⊢
      omega
    · have := ih n r h
      simp only [List.length_cons]
      omega

theorem matchBlockAt_lt : ∀ (s r : List Char),
    matchBlockAt s = some r → r.length < s.length := by
  intro s r h
  cases s with
  | nil => simp [matchBlockAt] at h
  | cons c cs =>
    simp only [matchBlockAt] at h
    split at h
    · split at h
      · exact absurd h (by simp)
      · rename_i n r1 htd
        split at h
        · exact absurd h (by simp)
        · rename_i c2 r2 hdw
          split at h
          · have h1 : r1.length < cs.length :=
              tryDanger_lt dangerNames cs n r1 (by decide) htd
            have h2 : (c2 :: r2).length ≤ r1.length := hdw ▸ dropWhile_len_le _ r1
            have h3 : r.length < r2.length := findCloseCI_lt r2 n r h
            simp only [List.length_cons] at h2 ⊢
            omega
          · exact absurd h (by simp)
    · exact absurd h (by simp)

theorem matchBlockAt_none (c : Char) (cs : List Char) (hc : c ≠ '<') :
    matchBlockAt (c :: cs) = none := by
  simp only [matchBlockAt]
  rw [if_neg hc]

theorem removeBlocksF_irrel : ∀ (f1 : Nat) (s : List Char) (f2 : Nat),
    s.length ≤ f1 → s.length ≤ f2 → removeBlocksF f1 s = removeBlocksF f2 s := by
  intro f1
  induction f1 with
  | zero =>
    intro s f2 h1 _
    have : s = [] := List.eq_nil_of_length_eq_zero (Nat.le_zero.mp h1)
    subst this
    cases f2 <;> rfl
  | succ f ih =>
    intro s f2 h1 h2
    cases s with
    | nil => cases f2 <;> rfl
    | cons c cs =>
      cases f2 with
      | zero => simp at h2
      | succ f2' =>
        simp only [removeBlocksF]
        simp only [List.length_cons] at h1 h2
        rcases hm : matchBlockAt (c :: cs) with - | r
        · exact congrArg (List.cons c) (ih cs f2' (by omega) (by omega))
        · have hlt := matchBlockAt_lt _ _ hm
          simp only [List.length_cons] at hlt
          exact ih r f2' (by omega) (by omega)

theorem removeBlocksF_len_le : ∀ (f : Nat) (s : List Char),
    (removeBlocksF f s).length ≤ s.length := by
  intro f
  induction f with
  | zero => intro s; exact le_refl _
  | succ f ih =>
    intro s
    cases s with
    | nil => exact le_refl _
    | cons c cs =>
      simp only [removeBlocksF]
      rcases hm : matchBlockAt (c :: cs) with - | r
      · simp only [List.length_cons]
        have := ih cs
        omega
      · have h1 := matchBlockAt_lt _ _ hm
        have h2 := ih r
        simp only [List.length_cons] at h1 ⊢
        omega

theorem removeBlocksF_eq_or_lt : ∀ (f : Nat) (s : List Char),
    removeBlocksF f s = s ∨ (removeBlocksF f s).length < s.length := by
  intro f
  induction f with
  | zero => intro s; left; rfl
  | succ f ih =>
    intro s
    cases s with
    | nil => left; rfl
    | cons c cs =>
      simp only [removeBlocksF]
      rcases hm : matchBlockAt (c :: cs) with - | r
      · rcases ih cs with h | h
        · left
          rw [h]
        · right
          simp only [List.length_cons]
          omega
      · right
        have h1 := matchBlockAt_lt _ _ hm
        have h2 := removeBlocksF_len_le f r
        simp only [List.length_cons] at h1 ⊢
        omega

theorem removeBlocks_len_le (s : List Char) : (removeBlocks s).length ≤ s.length :=
  removeBlocksF_len_le s.length s

theorem removeBlocks_eq_or_lt (s : List Char) :
    removeBlocks s = s ∨ (removeBlocks s).length < s.length :=
  removeBlocksF_eq_or_lt s.length s

theorem removeBlocks_match (s r : List Char) (h : matchBlockAt s = some r) :
    removeBlocks s = removeBlocks r := by
  cases s with
  | nil => simp [matchBlockAt] at h
  | cons c cs =>
    have hlt := matchBlockAt_lt _ _ h
    simp only [List.length_cons] at hlt
    unfold removeBlocks
    simp only [List.length_cons, removeBlocksF, h]
    exact removeBlocksF_irrel cs.length r r.length (by omega) (le_refl _)

theorem removeBlocks_skip (c : Char) (cs : List Char) (h : matchBlockAt (c :: cs) = none) :
    removeBlocks (c :: cs) = c :: removeBlocks cs := by
  unfold removeBlocks
  simp only [List.length_cons, removeBlocksF, h]

theorem removeBlocks_emit_pre : ∀ (pre s : List Char), '<' ∉ pre →
    removeBlocks (pre ++ s) = pre ++ removeBlocks s := by
  intro pre
  induction pre with
  | nil => intro s _; rfl
  | cons c p ih =>
    intro s hp
    have hc : c ≠ '<' := fun h => hp (h ▸ List.mem_cons_self c p)
    rw [List.cons_append, removeBlocks_skip c (p ++ s) (matchBlockAt_none c _ hc),
      ih s (fun h => hp (List.mem_cons_of_mem c h)), List.cons_append]

theorem dropPfxCI_close (n cname post : List Char) (h : cname.map lowerC = n) :
    dropPfxCI ('<' :: '/' :: (n ++ ['>'])) ('<' :: '/' :: (cname ++ ('>' :: post))) =
      some post := by
  simp only [dropPfxCI]
  rw [if_pos (by decide : lowerC '<' = '<'), if_pos (by decide : lowerC '/' = '/'), ← h,
    dropPfxCI_lower_map_append]
  simp only [dropPfxCI]
  rw [if_pos (by decide : lowerC '>' = '>')]

theorem findCloseCI_through : ∀ (inner name cname post : List Char),
    (∀ c ∈ inner, lowerC c ≠ '<') → cname.map lowerC = name.map lowerC →
    findCloseCI (name.map lowerC) (inner ++ ('<' :: '/' :: (cname ++ ('>' :: post)))) =
      some post := by
  intro inner
  induction inner with
  | nil =>
    intro name cname post _ hcname
    simp only [List.nil_append, findCloseCI]
    rw [dropPfxCI_close (name.map lowerC) cname post hcname]
  | cons c inner' ih =>
    intro name cname post hinner hcname
    have hc : lowerC c ≠ '<' := hinner c (List.mem_cons_self c inner')
    simp only [List.cons_append, findCloseCI, List.append_eq]
    rw [show dropPfxCI ('<' :: '/' :: (name.map lowerC ++ ['>']))
        (c :: (inner' ++ ('<' :: '/' :: (cname ++ ('>' :: post))))) = none by
      simp only [dropPfxCI]
      rw [if_neg hc]]
    exact ih name cname post (fun d hd => hinner d (List.mem_cons_of_mem c hd)) hcname

/-- C1: for every generator and bound source pair, if every generated text
fails validation then `generate_blog_with_two_sources` makes exactly 2
generation calls (the draft and one remediation), re-validates the repaired
output, and surfaces the validation error of the second attempt — never a
third call, never the first attempt's error. -/
theorem c1_repair_attempted_exactly_once (gen : Nat → List Char)
    (srcs : SourceDoc × SourceDoc) (e : Nat → List Char)
    (h : ∀ n, validate_all (gen n) srcs = .error (e n)) :
    generate_blog_with_two_sources gen srcs = (.error (e 1), 2) := by
  unfold generate_blog_with_two_sources
  simp only [h 0, h 1]

/-- C1 witness: a generator that always returns an em dash makes exactly 2
calls and the terminal error is the dash message of the second attempt. -/
theorem c1_repair_attempted_exactly_once_witness :
    generate_blog_with_two_sources (fun _ => chars "—") src0 = (.error dashMsg, 2) :=
  c1_repair_attempted_exactly_once (fun _ => chars "—") src0 (fun _ => dashMsg)
    (fun _ => rfl)

/-- C2 counterexample: `c2md` violates the dash rule, the FAQ rule and the
citation rule at once, yet `validate_all` raises only the dash message: the
messages of the other failing rules do not occur in the raised error, so the
failure does not carry the violation message of every failing rule. -/
theorem c2_counterexample :
    validate_all c2md src0 = .error dashMsg ∧
    validate_faqs c2md = .error faqMissingMsg ∧
    validate_has_citations c2md = .error citeMsg ∧
    isSubstr faqMissingMsg dashMsg = false ∧
    isSubstr citeMsg dashMsg = false :=
  ⟨rfl, rfl, rfl, rfl, rfl⟩

/-- C2 amended: the validation engine short-circuits — `validate_all` runs the
validators in the fixed order dashes, FAQs, citations, reference integrity and
raises the first failing rule's single message, whichever rule that is:
whenever every rule before position k succeeds and the rule at position k
fails with message e, `validate_all` raises exactly e — violations of the
later rules are not collected. -/
theorem c2_first_failure_propagates (md : List Char) (srcs : SourceDoc × SourceDoc)
    (e : List Char) :
    (validate_no_dashes md = .error e → validate_all md srcs = .error e) ∧
    (validate_no_dashes md = .ok () → validate_faqs md = .error e →
      validate_all md srcs = .error e) ∧
    (validate_no_dashes md = .ok () → validate_faqs md = .ok () →
      validate_has_citations md = .error e → validate_all md srcs = .error e) ∧
    (validate_no_dashes md = .ok () → validate_faqs md = .ok () →
      validate_has_citations md = .ok () →
      validate_two_sources_only md srcs = .error e →
      validate_all md srcs = .error e) := by
  refine ⟨?_, ?_, ?_, ?_⟩
  · intro h1
    unfold validate_all
    rw [h1]
    rfl
  · intro h1 h2
    unfold validate_all
    rw [h1, h2]
    rfl
  · intro h1 h2 h3
    unfold validate_all
    rw [h1, h2, h3]
    rfl
  · intro h1 h2 h3 h4
    unfold validate_all
    rw [h1, h2, h3, h4]
    rfl

/-- C2 witness: one concrete artifact per position of the first failing rule —
an en dash, a missing FAQ section, a FAQ-complete text with no citations, and
a fully structured text missing the first source backlink. -/
theorem c2_first_failure_propagates_witness :
    validate_all (chars "text with – dash") src0 = .error dashMsg ∧
    validate_all c2faq src0 = .error faqMissingMsg ∧
    validate_all c2cite src0 = .error citeMsg ∧
    validate_all c2src src0 = .error (backlinkMsg src0.1.url) :=
  ⟨(c2_first_failure_propagates (chars "text with – dash") src0 dashMsg).1 rfl,
   (c2_first_failure_propagates c2faq src0 faqMissingMsg).2.1 rfl rfl,
   (c2_first_failure_propagates c2cite src0 citeMsg).2.2.1 rfl rfl rfl,
   (c2_first_failure_propagates c2src src0 (backlinkMsg src0.1.url)).2.2.2 rfl rfl rfl rfl⟩

/-- C3 counterexample: sanitizing `c3x` once yields `<script>hello</script>`
(removing the two inner script elements splices the surrounding text into a
new one), and sanitizing that output again yields the empty text — so
`sanitize_output (sanitize_output x) ≠ sanitize_output x` at the default
ceiling 20000, refuting idempotence. -/
theorem c3_counterexample :
    sanitize_output c3x 20000 = chars "<script>hello</script>" ∧
    sanitize_output (sanitize_output c3x 20000) 20000 = [] ∧
    sanitize_output (sanitize_output c3x 20000) 20000 ≠ sanitize_output c3x 20000 :=
  ⟨rfl, rfl, by decide⟩

/-- C4 (code bug): `c4md` contains both bound source URLs literally, as
well-formed markdown backlinks and nothing else, yet the rule rejects it: the
URL pattern of line 398 (whose literal is, moreover, a Python syntax error —
the unescaped quote in `r"https?://[^"]+"` ends the string early, so the
module cannot even be imported) matches greedily up to the next double quote,
capturing `) and [B](...` and the rest of the text as part of the first URL,
which is then reported as a disallowed external link. -/
theorem c4_code_rejects_markdown_backlinks :
    isSubstr src0.1.url c4md = true ∧ isSubstr src0.2.url c4md = true ∧
    urlFindAll c4md =
      [chars "https://a.example/one) and [B](https://b.example/two) text."] ∧
    (validate_two_sources_only c4md src0).isOk = false :=
  ⟨rfl, rfl, rfl, rfl⟩

/-- C6 counterexample: for the claim's own example the result is not exactly
the claimed string — the code strips and appends a trailing newline
(line 525). -/
theorem c6_counterexample :
    inject_summary_at_top (chars "# Title\nBody") (chars "> S1. S2. S3. S4.") ≠
      chars "# Title\n\n> S1. S2. S3. S4.\n\nBody" := by
  decide

/-- C6 amended: `inject_summary_at_top` is deterministic; when the first line
is a top-level heading the summary is inserted after it with one blank line on
each side, otherwise it is prepended before all content with a blank line —
and the result is finally stripped and terminated by one newline, so the
example yields `"# Title\n\n> S1. S2. S3. S4.\n\nBody\n"`. -/
theorem c6_summary_insertion :
    (∀ c s l0 r rs, pySplitlines c = l0 :: r :: rs → hasPfx (chars "# ") l0 = true →
      inject_summary_at_top c s =
        pyStrip (l0 ++ chars "\n\n" ++ pyStrip s ++ chars "\n\n" ++ joinNl (r :: rs)) ++
          ['\n']) ∧
    (∀ c s, hasPfx (chars "# ") ((pySplitlines c).headD []) = false →
      inject_summary_at_top c s = pyStrip s ++ chars "\n\n" ++ pyStrip c ++ ['\n']) ∧
    inject_summary_at_top (chars "# Title\nBody") (chars "> S1. S2. S3. S4.") =
      chars "# Title\n\n> S1. S2. S3. S4.\n\nBody\n" := by
  refine ⟨?_, ?_, by decide⟩
  · intro c s l0 r rs hsplit hh
    unfold inject_summary_at_top
    rw [hsplit]
    simp only [hh, if_pos]
    simp [joinNl, chars]
  · intro c s hh
    unfold inject_summary_at_top
    rcases hsplit : pySplitlines c with _ | ⟨l0, rest⟩
    · rfl
    · rw [hsplit] at hh
      simp only [List.headD_cons] at hh
      dsimp only []
      rw [if_neg (by simp [hh])]

/-- C6 witness: the prepend branch at a concrete input. -/
theorem c6_summary_insertion_witness :
    inject_summary_at_top (chars "Body only") (chars "> S1. S2. S3. S4.") =
      chars "> S1. S2. S3. S4.\n\nBody only\n" :=
  c6_summary_insertion.2.1 (chars "Body only") (chars "> S1. S2. S3. S4.") (by decide)

/-- C7 counterexample: `c7th` has no header-cell element — its only
case-insensitive occurrence of `<th` is inside the `<thead` marker — yet
`validate_html_table` accepts it, because the header-cell check is a substring
search for `<th` that the table-head marker satisfies. -/
theorem c7_counterexample :
    validate_html_table c7th = .ok () ∧
    countSubstrCI (chars "<th") c7th = countSubstrCI (chars "<thead") c7th :=
  ⟨rfl, rfl⟩

/-- C7 amended: the table rule accepts exactly the contents with no forbidden
dash, no code-fence marker, exactly one opening and one closing table marker
(case-insensitive), and each of the substrings `<thead`, `<tbody`, `<tr`,
`<th`, `<td` present case-insensitively (so a table-head marker also
discharges the header-cell check, and each missing substring raises its own
distinct message, the first one found); content with two opening table markers
still fails even with all structural tags present. -/
theorem c7_table_rule_characterisation :
    (∀ t, validate_html_table t = .ok () ↔
      ((t.contains '—' || t.contains '–') = false ∧
       isSubstr (chars "```") (pyStrip t) = false ∧
       openTableCount (pyStrip t) = 1 ∧ closeTableCount (pyStrip t) = 1 ∧
       isSubstrCI (chars "<thead") (pyStrip t) = true ∧
       isSubstrCI (chars "<tbody") (pyStrip t) = true ∧
       isSubstrCI (chars "<tr") (pyStrip t) = true ∧
       isSubstrCI (chars "<th") (pyStrip t) = true ∧
       isSubstrCI (chars "<td") (pyStrip t) = true)) ∧
    (validate_html_table c7two).isOk = false := by
  refine ⟨?_, rfl⟩
  intro t
  unfold validate_html_table
  split_ifs with h1 h2 h3 h4 h5 h6 h7 h8 <;> simp_all [not_or] <;> tauto

/-- C8: a summary block that (after stripping) starts with the block-quote
marker and contains no forbidden dash is accepted by `validate_summary`
exactly when its sentence count — splitting on `.`/`!`/`?` runs and discarding
segments empty after stripping — lies in [4,5]. -/
theorem c8_summary_sentence_window (s : List Char)
    (hstart : hasPfx (chars ">") (pyStrip s) = true)
    (hdash1 : s.contains '—' = false) (hdash2 : s.contains '–' = false) :
    validate_summary s = .ok () ↔ (4 ≤ sentenceCount s ∧ sentenceCount s ≤ 5) := by
  unfold validate_summary
  rw [hstart, hdash1, hdash2]
  by_cases h : 4 ≤ sentenceCount s ∧ sentenceCount s ≤ 5 <;> simp [h]

/-- C8 witness: a five-sentence block passes; so the window is reachable. -/
theorem c8_summary_sentence_window_witness :
    validate_summary (chars "> One. Two. Three. Four. Five.") = .ok () :=
  (c8_summary_sentence_window (chars "> One. Two. Three. Four. Five.")
    rfl rfl rfl).mpr (by decide)

/-- C10: `validate_faqs` accepts any content containing the literal
`## FAQs` and exactly 4 lines matching the bolded question pattern, with no
requirement that the four labels be distinct or ordered. -/
theorem c10_faq_count_only (md : List Char)
    (h1 : isSubstr (chars "## FAQs") md = true) (h2 : qCount md = 4) :
    validate_faqs md = .ok () := by
  unfold validate_faqs
  rw [h1, h2]
  rfl

/-- C10 witness: content whose four question lines are all labeled Q1 raises
no error. -/
theorem c10_faq_count_only_witness :
    validate_faqs (chars "## FAQs\n**Q1: A?**\n**Q1: B?**\n**Q1: C?**\n**Q1: D?**") =
      .ok () :=
  c10_faq_count_only (chars "## FAQs\n**Q1: A?**\n**Q1: B?**\n**Q1: C?**\n**Q1: D?**")
    rfl rfl

theorem dropPfxCI_fail_name (pat name r lc : List Char)
    (h : name.map lowerC = lc) (hl : name.length = lc.length)
    (hne : pat.take lc.length ≠ lc.take pat.length) :
    dropPfxCI pat (name ++ r) = none := by
  apply dropPfxCI_none_of_mismatch
  rw [h, hl]
  exact hne

theorem tryDanger_at_name (name r : List Char)
    (h : name.map lowerC = chars "script" ∨ name.map lowerC = chars "style" ∨
      name.map lowerC = chars "iframe" ∨ name.map lowerC = chars "object" ∨
      name.map lowerC = chars "embed") :
    tryDanger dangerNames (name ++ r) = some (name.map lowerC, r) := by
  have hexact := dropPfxCI_lower_map name r
  have hlen : name.length = (name.map lowerC).length := (List.length_map _ _).symm
  rcases h with h | h | h | h | h
  · rw [h]
    simp only [dangerNames, tryDanger]
    rw [show dropPfxCI (chars "script") (name ++ r) = some r from h ▸ hexact]
  · rw [h]
    simp only [dangerNames, tryDanger]
    rw [dropPfxCI_fail_name (chars "script") name r (chars "style") h
        (by rw [hlen, h]) (by decide),
      show dropPfxCI (chars "style") (name ++ r) = some r from h ▸ hexact]
  · rw [h]
    simp only [dangerNames, tryDanger]
    rw [dropPfxCI_fail_name (chars "script") name r (chars "iframe") h
        (by rw [hlen, h]) (by decide),
      dropPfxCI_fail_name (chars "style") name r (chars "iframe") h
        (by rw [hlen, h]) (by decide),
      show dropPfxCI (chars "iframe") (name ++ r) = some r from h ▸ hexact]
  · rw [h]
    simp only [dangerNames, tryDanger]
    rw [dropPfxCI_fail_name (chars "script") name r (chars "object") h
        (by rw [hlen, h]) (by decide),
      dropPfxCI_fail_name (chars "style") name r (chars "object") h
        (by rw [hlen, h]) (by decide),
      dropPfxCI_fail_name (chars "iframe") name r (chars "object") h
        (by rw [hlen, h]) (by decide),
      show dropPfxCI (chars "object") (name ++ r) = some r from h ▸ hexact]
  · rw [h]
    simp only [dangerNames, tryDanger]
    rw [dropPfxCI_fail_name (chars "script") name r (chars "embed") h
        (by rw [hlen, h]) (by decide),
      dropPfxCI_fail_name (chars "style") name r (chars "embed") h
        (by rw [hlen, h]) (by decide),
      dropPfxCI_fail_name (chars "iframe") name r (chars "embed") h
        (by rw [hlen, h]) (by decide),
      dropPfxCI_fail_name (chars "object") name r (chars "embed") h
        (by rw [hlen, h]) (by decide),
      show dropPfxCI (chars "embed") (name ++ r) = some r from h ▸ hexact]

theorem matchBlockAt_elem (name attrs inner cname post : List Char)
    (hname : name.map lowerC = chars "script" ∨ name.map lowerC = chars "style" ∨
      name.map lowerC = chars "iframe" ∨ name.map lowerC = chars "object" ∨
      name.map lowerC = chars "embed")
    (hcname : cname.map lowerC = name.map lowerC)
    (hattrs : '>' ∉ attrs) (hinner : ∀ c ∈ inner, lowerC c ≠ '<') :
    matchBlockAt ('<' :: (name ++ (attrs ++ '>' ::
        (inner ++ ('<' :: '/' :: (cname ++ ('>' :: post))))))) = some post := by
  simp only [matchBlockAt]
  rw [if_pos trivial, tryDanger_at_name name _ hname]
  dsimp only []
  rw [dropWhile_to_gt attrs _ hattrs]
  dsimp only []
  rw [if_pos rfl, findCloseCI_through inner name cname post hinner hcname]

theorem removeBlocks_clean (pre name attrs inner cname post : List Char)
    (hname : name.map lowerC = chars "script" ∨ name.map lowerC = chars "style" ∨
      name.map lowerC = chars "iframe" ∨ name.map lowerC = chars "object" ∨
      name.map lowerC = chars "embed")
    (hcname : cname.map lowerC = name.map lowerC)
    (hattrs : '>' ∉ attrs) (hpre : '<' ∉ pre) (hinner : ∀ c ∈ inner, lowerC c ≠ '<') :
    removeBlocks (pre ++ '<' :: (name ++ (attrs ++ '>' ::
        (inner ++ ('<' :: '/' :: (cname ++ ('>' :: post))))))) =
      pre ++ removeBlocks post := by
  rw [removeBlocks_emit_pre pre _ hpre,
    removeBlocks_match _ post (matchBlockAt_elem name attrs inner cname post
      hname hcname hattrs hinner)]

/-- C5 counterexample: `c5x` contains the well-formed script element
`<script>a</style>b</script>` — its inner content `a</style>b` holds no
closing script tag — yet `sanitize_output` does not remove the element
entirely: the unclosed `<style>` before it pairs with the stray `</style>`
inside the element, so the pass deletes `<style><script>a</style>` and the
result `b</script>` still contains the inner character `b` and the element's
closing tag. -/
theorem c5_counterexample :
    isSubstr (chars "<script>a</style>b</script>") c5x = true ∧
    isSubstrCI (chars "</script") (chars "a</style>b") = false ∧
    sanitize_output c5x 20000 = chars "b</script>" :=
  ⟨rfl, rfl, rfl⟩

/-- C5 amended: `sanitize_output` removes a well-formed dangerous element —
opening tag through matching closing tag, any letter case in either tag name —
together with its entire inner content, provided nothing interferes with the
single-pass scan: no `<` occurs before the element or inside its inner
content, the attribute text has no `>`, and the other sanitizer passes leave
the surrounding text unchanged.  The output is the text around the element
(with everything after it still scanned), so no part of the inner content
survives. -/
theorem c5_removes_uninterfered_elements
    (x y pre name attrs inner cname post : List Char) (L : Nat)
    (hx : x = pre ++ '<' :: (name ++ (attrs ++ '>' ::
      (inner ++ ('<' :: '/' :: (cname ++ ('>' :: post)))))))
    (hy : y = pre ++ removeBlocks post)
    (hname : name.map lowerC = chars "script" ∨ name.map lowerC = chars "style" ∨
      name.map lowerC = chars "iframe" ∨ name.map lowerC = chars "object" ∨
      name.map lowerC = chars "embed")
    (hcname : cname.map lowerC = name.map lowerC)
    (hattrs : '>' ∉ attrs) (hpre : '<' ∉ pre) (hinner : ∀ c ∈ inner, lowerC c ≠ '<')
    (hx0 : x.filter (· != nul) = x) (hx1 : pyStrip x = x)
    (hx2 : stripLeadFence x = x) (hx3 : stripTrailFence x = x)
    (hy5 : removeHandlers y = y) (hy6 : fixHrefs y = y) (hy7 : pyStrip y = y)
    (hy8 : y.length ≤ L) :
    sanitize_output x L = y := by
  unfold sanitize_output
  rw [hx0, hx1, hx2, hx3, hx,
    removeBlocks_clean pre name attrs inner cname post hname hcname hattrs hpre hinner,
    ← hy, hy5, hy6, hy7]
  unfold truncAt
  rw [if_neg (Nat.not_lt.mpr hy8)]

/-- C5 witness: a mixed-case script element with attributes is removed with
all its inner content. -/
theorem c5_removes_uninterfered_elements_witness :
    sanitize_output (chars "intro <ScRiPt a=b>alert(9); x = 1</SCRIPT> tail") 20000 =
      chars "intro  tail" :=
  c5_removes_uninterfered_elements
    (chars "intro <ScRiPt a=b>alert(9); x = 1</SCRIPT> tail") (chars "intro  tail")
    (chars "intro ") (chars "ScRiPt") (chars " a=b") (chars "alert(9); x = 1")
    (chars "SCRIPT") (chars " tail") 20000
    (by decide) (by decide) (Or.inl (by decide)) (by decide) (by decide) (by decide)
    (by decide) rfl rfl rfl rfl rfl rfl rfl (by decide)

-- Lemmas about the javascript:-href rewriter (line 668).

theorem matchHrefAt_lt : ∀ (s r : List Char), matchHrefAt s = some r →
    r.length + 18 ≤ s.length := by
  intro s r h
  unfold matchHrefAt at h
  split at h
  · exact absurd h (by simp)
  · rename_i r1 heq1
    have hl1 := dropPfxCI_length _ _ _ heq1
    rw [show (chars "href").length = 4 from rfl] at hl1
    split at h
    · exact absurd h (by simp)
    · rename_i c r2 heq2
      have hl2 : (c :: r2).length ≤ r1.length := heq2 ▸ dropWhile_len_le _ r1
      split at h
      · split at h
        · rename_i q r4 heq3
          have hl3 : (q :: r4).length ≤ r2.length := heq3 ▸ dropWhile_len_le _ r2
          split at h
          · split at h
            · rename_i r5 heq5
              have hl5 := dropPfxCI_length _ _ _ heq5
              rw [show (chars "javascript:").length = 11 from rfl] at hl5
              have hl4 : (r4.dropWhile pyIsSpace).length ≤ r4.length := dropWhile_len_le _ r4
              have hlz := lazyToQuote_lt r5 q r h
              simp only [List.length_cons] at hl2 hl3
              omega
            · exact absurd h (by simp)
          · exact absurd h (by simp)
        · exact absurd h (by simp)
      · exact absurd h (by simp)

theorem fixHrefsF_irrel : ∀ (f1 : Nat) (s : List Char) (f2 : Nat),
    s.length ≤ f1 → s.length ≤ f2 → fixHrefsF f1 s = fixHrefsF f2 s := by
  intro f1
  induction f1 with
  | zero =>
    intro s f2 h1 _
    have : s = [] := List.eq_nil_of_length_eq_zero (Nat.le_zero.mp h1)
    subst this
    cases f2 <;> rfl
  | succ f ih =>
    intro s f2 h1 h2
    cases s with
    | nil => cases f2 <;> rfl
    | cons c cs =>
      cases f2 with
      | zero => simp at h2
      | succ f2' =>
        simp only [fixHrefsF]
        simp only [List.length_cons] at h1 h2
        rcases hm : matchHrefAt (c :: cs) with - | r
        · exact congrArg (List.cons c) (ih cs f2' (by omega) (by omega))
        · have hlt := matchHrefAt_lt _ _ hm
          simp only [List.length_cons] at hlt
          exact congrArg (hrefRepl ++ ·) (ih r f2' (by omega) (by omega))

theorem fixHrefs_match (s r : List Char) (h : matchHrefAt s = some r) :
    fixHrefs s = hrefRepl ++ fixHrefs r := by
  cases s with
  | nil =>
    rw [show matchHrefAt [] = none from rfl] at h
    exact absurd h (by simp)
  | cons c cs =>
    have hlt := matchHrefAt_lt _ _ h
    simp only [List.length_cons] at hlt
    unfold fixHrefs
    simp only [List.length_cons, fixHrefsF, h]
    exact congrArg (hrefRepl ++ ·) (fixHrefsF_irrel cs.length r r.length (by omega) (le_refl _))

theorem matchHrefAt_head (q : Char) (v t : List Char)
    (hq : q = '"' ∨ q = sq) (hv : ∀ c ∈ v, c ≠ q ∧ c ≠ '\n') :
    matchHrefAt (chars "href" ++ '=' :: q :: (chars "javascript:" ++ (v ++ q :: t))) =
      some t := by
  have hqs : pyIsSpace q = false := by rcases hq with h | h <;> rw [h] <;> decide
  have hqv : (q == '"' || q == sq) = true := by rcases hq with h | h <;> rw [h] <;> decide
  unfold matchHrefAt
  rw [show dropPfxCI (chars "href")
      (chars "href" ++ ('=' :: q :: (chars "javascript:" ++ (v ++ q :: t)))) =
      some ('=' :: q :: (chars "javascript:" ++ (v ++ q :: t))) from by
    rw [← (show (chars "href").map lowerC = chars "href" by decide)]
    exact dropPfxCI_lower_map _ _]
  dsimp only []
  rw [List.dropWhile_cons, if_neg (by decide : ¬ pyIsSpace '=' = true)]
  dsimp only []
  rw [if_pos rfl, List.dropWhile_cons, if_neg (by simp [hqs])]
  dsimp only []
  rw [hqv, if_pos rfl]
  rw [show (chars "javascript:" ++ (v ++ q :: t)).dropWhile pyIsSpace =
      chars "javascript:" ++ (v ++ q :: t) from by
    rw [show chars "javascript:" ++ (v ++ q :: t) =
        'j' :: (chars "avascript:" ++ (v ++ q :: t)) from rfl]
    rw [List.dropWhile_cons, if_neg (by decide : ¬ pyIsSpace 'j' = true)]]
  rw [show dropPfxCI (chars "javascript:") (chars "javascript:" ++ (v ++ q :: t)) =
      some (v ++ q :: t) from by
    rw [← (show (chars "javascript:").map lowerC = chars "javascript:" by decide)]
    exact dropPfxCI_lower_map _ _]
  dsimp only []
  exact lazyToQuote_through v q t hv

/-- C9 counterexample: an href attribute whose javascript: value is unquoted
is not rewritten — `sanitize_output` returns the text unchanged, so a
javascript: href attribute value survives in the result. -/
theorem c9_counterexample :
    sanitize_output c9u 20000 = c9u ∧
    isSubstr (chars "href=javascript:") (sanitize_output c9u 20000) = true :=
  ⟨rfl, rfl⟩

theorem matchHrefAt_skip (c : Char) (cs : List Char) (hc : lowerC c ≠ 'h') :
    matchHrefAt (c :: cs) = none := by
  unfold matchHrefAt
  rw [show dropPfxCI (chars "href") (c :: cs) = none from by
    rw [show chars "href" = 'h' :: chars "ref" from rfl]
    simp only [dropPfxCI]
    rw [if_neg hc]]

theorem fixHrefs_skip (c : Char) (cs : List Char) (h : matchHrefAt (c :: cs) = none) :
    fixHrefs (c :: cs) = c :: fixHrefs cs := by
  unfold fixHrefs
  simp only [List.length_cons, fixHrefsF, h]

theorem fixHrefs_emit_pre : ∀ (pre s : List Char), (∀ c ∈ pre, lowerC c ≠ 'h') →
    fixHrefs (pre ++ s) = pre ++ fixHrefs s := by
  intro pre
  induction pre with
  | nil => intro s _; rfl
  | cons c p ih =>
    intro s hp
    have hc : lowerC c ≠ 'h' := hp c (List.mem_cons_self c p)
    rw [List.cons_append, fixHrefs_skip c (p ++ s) (matchHrefAt_skip c _ hc),
      ih s (fun d hd => hp d (List.mem_cons_of_mem c hd)), List.cons_append]

/-- C9 amended: the href-rewrite pass of `sanitize_output` scans left to
right and replaces every href attribute whose value is quoted (double or
single), begins with `javascript:`, and is closed by its matching quote on
the same line with the safe placeholder `href="#"`, continuing the pass on
the text after the attribute — here for an attribute at any position whose
preceding text cannot start an href match (no letter h, in either case,
occurs before it).  Attributes with unquoted javascript: values (see the
counterexample) or with no closing quote before a newline are left as they
are. -/
theorem c9_rewrites_wellformed_quoted_hrefs (pre : List Char) (q : Char)
    (v t : List Char) (hpre : ∀ c ∈ pre, lowerC c ≠ 'h')
    (hq : q = '"' ∨ q = sq) (hv : ∀ c ∈ v, c ≠ q ∧ c ≠ '\n') :
    fixHrefs (pre ++ (chars "href" ++ '=' :: q :: (chars "javascript:" ++ (v ++ q :: t)))) =
      pre ++ (hrefRepl ++ fixHrefs t) := by
  rw [fixHrefs_emit_pre pre _ hpre, fixHrefs_match _ t (matchHrefAt_head q v t hq hv)]

/-- C9 witness: a double-quoted javascript: href inside an anchor tag is
rewritten to the placeholder, the surrounding text kept. -/
theorem c9_rewrites_wellformed_quoted_hrefs_witness :
    fixHrefs (chars "<a x=1 href=\"javascript:alert(1)\" y>") =
      chars "<a x=1 href=\"#\" y>" :=
  c9_rewrites_wellformed_quoted_hrefs (chars "<a x=1 ") '"' (chars "alert(1)")
    (chars " y>") (by decide) (Or.inl rfl) (by decide)

-- The event-handler and href passes also only delete or shorten: the minimum
-- handler match is longer than its empty replacement and the minimum href
-- match (18 characters) is longer than the 8-character placeholder.

theorem bareValue_lt : ∀ (s r : List Char), bareValue s = some r →
    r.length < s.length := by
  intro s r h
  unfold bareValue at h
  split at h
  · exact absurd h (by simp)
  · rename_i hne
    simp only [Option.some.injEq] at h
    subst h
    have h1 := takeWhile_len_le (fun c => !pyIsSpace c && c != '>') s
    have h2 : (s.takeWhile (fun c => !pyIsSpace c && c != '>')).length ≠ 0 := by
      intro h0
      apply hne
      rw [List.length_eq_zero] at h0
      rw [h0]
      rfl
    rw [List.length_drop]
    omega

theorem matchAttrValue_lt : ∀ (s r : List Char), matchAttrValue s = some r →
    r.length < s.length := by
  intro s r h
  cases s with
  | nil => simp [matchAttrValue] at h
  | cons c cs =>
    simp only [matchAttrValue] at h
    split at h
    · split at h
      · rename_i r2 heq
        simp only [Option.some.injEq] at h
        subst h
        have := lazyToQuote_lt cs '"' r2 heq
        simp only [List.length_cons]
        omega
      · exact bareValue_lt _ _ h
    · split at h
      · split at h
        · rename_i r2 heq
          simp only [Option.some.injEq] at h
          subst h
          have := lazyToQuote_lt cs sq r2 heq
          simp only [List.length_cons]
          omega
        · exact bareValue_lt _ _ h
      · exact bareValue_lt _ _ h

theorem matchHandlerAt_lt : ∀ (s r : List Char), matchHandlerAt s = some r →
    r.length < s.length := by
  intro s r h
  cases s with
  | nil => simp [matchHandlerAt] at h
  | cons c r0 =>
    simp only [matchHandlerAt] at h
    split at h
    · split at h
      · exact absurd h (by simp)
      · rename_i r1 heq1
        have hl1 := dropPfxCI_length _ _ _ heq1
        rw [show (chars "on").length = 2 from rfl] at hl1
        split at h
        · exact absurd h (by simp)
        · split at h
          · exact absurd h (by simp)
          · rename_i c2 r4 heq2
            split at h
            · have hl2 : (c2 :: r4).length ≤ (r1.dropWhile isWordChar).length :=
                heq2 ▸ dropWhile_len_le _ _
              have hl3 := dropWhile_len_le isWordChar r1
              have hl4 := dropWhile_len_le pyIsSpace r4
              have hl5 := matchAttrValue_lt _ _ h
              simp only [List.length_cons] at hl2 ⊢
              omega
            · exact absurd h (by simp)
    · exact absurd h (by simp)

set_option maxHeartbeats 1600000 in
theorem removeHandlersF_len_le : ∀ (f : Nat) (s : List Char),
    (removeHandlersF f s).length ≤ s.length := by
  intro f
  induction f with
  | zero => intro s; exact le_refl _
  | succ f ih =>
    intro s
    cases s with
    | nil => exact le_refl _
    | cons c cs =>
      simp only [removeHandlersF]
      rcases hm : matchHandlerAt (c :: cs) with - | r
      · simp only [List.length_cons]
        have := ih cs
        omega
      · have h1 := matchHandlerAt_lt _ _ hm
        have h2 := ih r
        simp only [List.length_cons] at h1 ⊢
        omega

theorem removeHandlersF_eq_or_lt : ∀ (f : Nat) (s : List Char),
    removeHandlersF f s = s ∨ (removeHandlersF f s).length < s.length := by
  intro f
  induction f with
  | zero => intro s; left; rfl
  | succ f ih =>
    intro s
    cases s with
    | nil => left; rfl
    | cons c cs =>
      simp only [removeHandlersF]
      rcases hm : matchHandlerAt (c :: cs) with - | r
      · rcases ih cs with h | h
        · left
          rw [h]
        · right
          simp only [List.length_cons]
          omega
      · right
        have h1 := matchHandlerAt_lt _ _ hm
        have h2 := removeHandlersF_len_le f r
        simp only [List.length_cons] at h1 ⊢
        omega

theorem removeHandlers_len_le (s : List Char) :
    (removeHandlers s).length ≤ s.length :=
  removeHandlersF_len_le s.length s

theorem removeHandlers_eq_or_lt (s : List Char) :
    removeHandlers s = s ∨ (removeHandlers s).length < s.length :=
  removeHandlersF_eq_or_lt s.length s

theorem fixHrefsF_len_le : ∀ (f : Nat) (s : List Char),
    (fixHrefsF f s).length ≤ s.length := by
  intro f
  induction f with
  | zero => intro s; exact le_refl _
  | succ f ih =>
    intro s
    cases s with
    | nil => exact le_refl _
    | cons c cs =>
      simp only [fixHrefsF]
      rcases hm : matchHrefAt (c :: cs) with - | r
      · simp only [List.length_cons]
        have := ih cs
        omega
      · have h1 := matchHrefAt_lt _ _ hm
        have h2 := ih r
        simp only [List.length_cons] at h1 ⊢
        rw [List.length_append, show hrefRepl.length = 8 from rfl]
        omega

theorem fixHrefsF_eq_or_lt : ∀ (f : Nat) (s : List Char),
    fixHrefsF f s = s ∨ (fixHrefsF f s).length < s.length := by
  intro f
  induction f with
  | zero => intro s; left; rfl
  | succ f ih =>
    intro s
    cases s with
    | nil => left; rfl
    | cons c cs =>
      simp only [fixHrefsF]
      rcases hm : matchHrefAt (c :: cs) with - | r
      · rcases ih cs with h | h
        · left
          rw [h]
        · right
          simp only [List.length_cons]
          omega
      · right
        have h1 := matchHrefAt_lt _ _ hm
        have h2 := fixHrefsF_len_le f r
        simp only [List.length_cons] at h1 ⊢
        rw [List.length_append, show hrefRepl.length = 8 from rfl]
        omega

theorem fixHrefs_len_le (s : List Char) : (fixHrefs s).length ≤ s.length :=
  fixHrefsF_len_le s.length s

theorem fixHrefs_eq_or_lt (s : List Char) :
    fixHrefs s = s ∨ (fixHrefs s).length < s.length :=
  fixHrefsF_eq_or_lt s.length s

/-- C3 amended: `sanitize_output` is not idempotent in general — removing a
dangerous element can splice the surrounding text into a new one that only a
second pass removes.  It is idempotent exactly on inputs whose sanitized
output is a fixed point of each internal pass: a second sanitization returns
`sanitize_output s L` unchanged if and only if every normalization and
rewrite step leaves it unchanged and its length is within the ceiling.
(The equivalence holds because every pass either fixes its input or strictly
shortens it.) -/
theorem c3_idempotent_on_step_fixed_output (s : List Char) (L : Nat) :
    sanitize_output (sanitize_output s L) L = sanitize_output s L ↔
      ((sanitize_output s L).filter (· != nul) = sanitize_output s L ∧
       pyStrip (sanitize_output s L) = sanitize_output s L ∧
       stripLeadFence (sanitize_output s L) = sanitize_output s L ∧
       stripTrailFence (sanitize_output s L) = sanitize_output s L ∧
       removeBlocks (sanitize_output s L) = sanitize_output s L ∧
       removeHandlers (sanitize_output s L) = sanitize_output s L ∧
       fixHrefs (sanitize_output s L) = sanitize_output s L ∧
       (sanitize_output s L).length ≤ L) := by
  set y := sanitize_output s L with hy
  constructor
  · intro h
    unfold sanitize_output at h
    set t1 := y.filter (· != nul) with ht1
    set t2 := pyStrip t1 with ht2
    set t3 := stripLeadFence t2 with ht3
    set t4 := stripTrailFence t3 with ht4
    set t5 := removeBlocks t4 with ht5
    set t6 := removeHandlers t5 with ht6
    set t7 := fixHrefs t6 with ht7
    set t8 := pyStrip t7 with ht8
    have l1 : t1.length ≤ y.length := by rw [ht1]; exact List.length_filter_le _ _
    have l2 : t2.length ≤ t1.length := by rw [ht2]; exact pyStrip_len_le t1
    have l3 : t3.length ≤ t2.length := by rw [ht3]; exact stripLeadFence_len_le t2
    have l4 : t4.length ≤ t3.length := by rw [ht4]; exact stripTrailFence_len_le t3
    have l5 : t5.length ≤ t4.length := by rw [ht5]; exact removeBlocks_len_le t4
    have l6 : t6.length ≤ t5.length := by rw [ht6]; exact removeHandlers_len_le t5
    have l7 : t7.length ≤ t6.length := by rw [ht7]; exact fixHrefs_len_le t6
    have l8 : t8.length ≤ t7.length := by rw [ht8]; exact pyStrip_len_le t7
    have l9 : (truncAt L t8).length ≤ t8.length := truncAt_len_le L t8
    have leq : (truncAt L t8).length = y.length := congrArg List.length h
    have e1 : t1.length = y.length := by omega
    have e2 : t2.length = y.length := by omega
    have e3 : t3.length = y.length := by omega
    have e4 : t4.length = y.length := by omega
    have e5 : t5.length = y.length := by omega
    have e6 : t6.length = y.length := by omega
    have e7 : t7.length = y.length := by omega
    have f1 : t1 = y := by
      rcases filter_eq_or_lt (· != nul) y with hq | hq
      · rw [ht1]
        exact hq
      · exfalso
        rw [← ht1] at hq
        omega
    have f2 : pyStrip y = y := by
      rcases pyStrip_eq_or_lt y with hq | hq
      · exact hq
      · exfalso
        have ht2' : t2 = pyStrip y := by rw [ht2, f1]
        rw [← ht2'] at hq
        omega
    have g2 : t2 = y := by rw [ht2, f1, f2]
    have f3 : stripLeadFence y = y := by
      rcases stripLeadFence_eq_or_lt y with hq | hq
      · exact hq
      · exfalso
        have ht3' : t3 = stripLeadFence y := by rw [ht3, g2]
        rw [← ht3'] at hq
        omega
    have g3 : t3 = y := by rw [ht3, g2, f3]
    have f4 : stripTrailFence y = y := by
      rcases stripTrailFence_eq_or_lt y with hq | hq
      · exact hq
      · exfalso
        have ht4' : t4 = stripTrailFence y := by rw [ht4, g3]
        rw [← ht4'] at hq
        omega
    have g4 : t4 = y := by rw [ht4, g3, f4]
    have f5 : removeBlocks y = y := by
      rcases removeBlocks_eq_or_lt y with hq | hq
      · exact hq
      · exfalso
        have ht5' : t5 = removeBlocks y := by rw [ht5, g4]
        rw [← ht5'] at hq
        omega
    have g5 : t5 = y := by rw [ht5, g4, f5]
    have f6 : removeHandlers y = y := by
      rcases removeHandlers_eq_or_lt y with hq | hq
      · exact hq
      · exfalso
        have ht6' : t6 = removeHandlers y := by rw [ht6, g5]
        rw [← ht6'] at hq
        omega
    have g6 : t6 = y := by rw [ht6, g5, f6]
    have f7 : fixHrefs y = y := by
      rcases fixHrefs_eq_or_lt y with hq | hq
      · exact hq
      · exfalso
        have ht7' : t7 = fixHrefs y := by rw [ht7, g6]
        rw [← ht7'] at hq
        omega
    have g7 : t7 = y := by rw [ht7, g6, f7]
    have g8 : t8 = y := by rw [ht8, g7, f2]
    rw [g8] at h
    exact ⟨f1, f2, f3, f4, f5, f6, f7, truncAt_eq_imp L y h⟩
  · rintro ⟨h0, h1, h2, h3, h4, h5, h6, h7⟩
    show truncAt L (pyStrip (fixHrefs (removeHandlers (removeBlocks
      (stripTrailFence (stripLeadFence (pyStrip (y.filter (· != nul))))))))) = y
    rw [h0, h1, h2, h3, h4, h5, h6, h1]
    unfold truncAt
    rw [if_neg (Nat.not_lt.mpr h7)]

/-- C3 witness: a plain text is a fixed point of every pass, so sanitizing it
twice equals sanitizing it once. -/
theorem c3_idempotent_on_step_fixed_output_witness :
    sanitize_output (sanitize_output (chars "plain text.") 20000) 20000 =
      sanitize_output (chars "plain text.") 20000 :=
  (c3_idempotent_on_step_fixed_output (chars "plain text.") 20000).mpr
    ⟨rfl, rfl, rfl, rfl, rfl, rfl, rfl, by decide⟩

end BlogWorker
